import Mathlib

/-!
Verification development for a small Lisp interpreter (`interpreter.py`).

The Python source is shallowly embedded: program text is `List Char`,
tokens are `List Char`, parsed expressions and runtime values share one
dynamically-typed universe `Exp` (mirroring Python, where the reader
produces `str`/`int`/`float`/`list` objects and evaluation can further
produce `bool`, `None` and function objects).  Python exceptions are
modelled by the `Err` type: the interpreter deliberately raises
`SyntaxError`, `ZeroDivisionError` and `KeyError` (caught by its REPL),
while `IndexError`, `ValueError` and `TypeError` escaping to the host are
modelled by the `host*` constructors.

Python `float` is modelled by `PyFloat` with exact rationals standing in
for binary64 values; rounding, overflow to infinity and the textual
shortest-repr of floats are not modelled, and no theorem below depends
on them.  Recursive functions over the token stream and over expressions
use an explicit fuel argument where Lean needs it; fuel is an embedding
artifact (the Python recursion is structural) and adequacy is either
proved where a theorem needs it or irrelevant to the statement.
-/

namespace LispIntr

/-- Python float values, with exact rationals abstracting binary64
(rounding and overflow are not modelled). -/
inductive PyFloat where
  | finite : ℚ → PyFloat
  | inf : Bool → PyFloat
  | nan : PyFloat
deriving DecidableEq

/-- The thirteen primitives registered by `standard_env`. -/
inductive Prim where
  | add | sub | mul | div | gt | lt | ge | le | eq | cons | car | cdr | atomTest
deriving DecidableEq

/-- The dynamically-typed universe of the interpreter: everything the
reader can produce (`int`,`float`,`sym`,`list`) plus the further runtime
values (`bool` results of comparisons, primitive function objects, and
Python `None`, which `lisp_eval` returns for a `define`). -/
inductive Exp where
  | int : ℤ → Exp
  | float : PyFloat → Exp
  | sym : List Char → Exp
  | bool : Bool → Exp
  | list : List Exp → Exp
  | prim : Prim → Exp
  | pynone : Exp

/-- Failure outcomes.  The first four are exceptions the interpreter
raises on purpose (its REPL catches `SyntaxError`, `ZeroDivisionError`
and `KeyError`); the `host*` constructors are Python exceptions that
escape uncaught (`IndexError`, `ValueError` from tuple unpacking,
`TypeError`).  `outOfFuel` is an artifact of the fuel-based embedding. -/
inductive Err where
  | unexpectedEOF : Err
  | unexpectedCloseParen : Err
  | keyError : Exp → Err
  | zeroDivision : Err
  | hostIndexError : Err
  | hostValueError : Err
  | hostTypeError : Err
  | outOfFuel : Err

/-! ## Tokenizer (`tokenize`) -/

/-- The ASCII whitespace recognised by Python `str.split()`: the six
classic space characters plus the separator controls 0x1C-0x1F (all of
which `str.isspace()` accepts).  Python additionally splits on non-ASCII
unicode whitespace (U+0085, U+00A0, U+2000...); those characters are not
modelled, and every theorem that depends on this function confines the
relevant text to ASCII. -/
def isPySpace (c : Char) : Bool :=
  c = ' ' || c = '\t' || c = '\n' || c = '\r' || c = '\x0b' || c = '\x0c' ||
    c = '\x1c' || c = '\x1d' || c = '\x1e' || c = '\x1f'

/-- Python `str.replace(old, new)` for a single-character `old`. -/
def pyReplace (s : List Char) (c : Char) (r : List Char) : List Char :=
  (s.map (fun a => if a = c then r else [a])).flatten

/-- Worker for Python `str.split()` with no separator: split on runs of
whitespace, discarding empty pieces.  `acc` holds the chars of the
current token, reversed. -/
def pySplitAux : List Char → List Char → List (List Char)
  | [], acc => if acc.isEmpty then [] else [acc.reverse]
  | ch :: cs, acc =>
    if isPySpace ch then
      if acc.isEmpty then pySplitAux cs [] else acc.reverse :: pySplitAux cs []
    else pySplitAux cs (ch :: acc)

/-- Python `str.split()` with no separator. -/
def pySplit (s : List Char) : List (List Char) := pySplitAux s []

/-- `tokenize`: surround each paren with spaces, then split on whitespace. -/
def tokenize (chars : List Char) : List (List Char) :=
  pySplit (pyReplace (pyReplace chars '(' (" ( ".data)) ')' (" ) ".data))

/-! ## Atom classification (`atom`), via Python `int()` / `float()` -/

def isDigit (c : Char) : Bool := '0' ≤ c && c ≤ '9'

def digitVal (c : Char) : ℕ := c.toNat - '0'.toNat

mutual

/-- Continuation of a digit run: digits with single underscores allowed
between digits (Python numeric-literal grammar).  Accumulates the value;
`none` on a malformed continuation. -/
def digitsCore : ℕ → List Char → Option ℕ
  | acc, [] => some acc
  | acc, c :: cs =>
    if isDigit c then digitsCore (acc * 10 + digitVal c) cs
    else if c = '_' then digitsCoreUnd acc cs
    else none

/-- After an underscore inside a digit run a digit must follow. -/
def digitsCoreUnd : ℕ → List Char → Option ℕ
  | _, [] => none
  | acc, d :: cs => if isDigit d then digitsCore (acc * 10 + digitVal d) cs else none

end

/-- A full digit run (at least one digit, underscores only between digits). -/
def digitsVal : List Char → Option ℕ
  | [] => none
  | c :: cs => if isDigit c then digitsCore (digitVal c) cs else none

/-- Python `int(token)` on a whitespace-free token: optional sign, then a
digit run.  (Non-ASCII digits are not modelled; tokens never contain
whitespace.) -/
def pyIntParse : List Char → Option ℤ
  | '+' :: cs => (digitsVal cs).map (fun n => (n : ℤ))
  | '-' :: cs => (digitsVal cs).map (fun n => -(n : ℤ))
  | cs => (digitsVal cs).map (fun n => (n : ℤ))

mutual

/-- Continuation of a greedy digit-run scan for `float()` parsing, after
at least one digit has been consumed: further digits, or a single
underscore followed by a digit, extend the run.  Accumulates the value
and the count of digits consumed; returns the unconsumed rest. -/
def scanDigitsCont : ℕ → ℕ → List Char → ℕ × ℕ × List Char
  | acc, k, [] => (acc, k, [])
  | acc, k, c :: cs =>
    if isDigit c then scanDigitsCont (acc * 10 + digitVal c) (k + 1) cs
    else if c = '_' then scanDigitsUnd acc k cs
    else (acc, k, c :: cs)

/-- After an underscore inside a digit run: a digit must follow to
continue; otherwise the run ends before the underscore (which is put
back, making the surrounding literal ill-formed as Python requires). -/
def scanDigitsUnd : ℕ → ℕ → List Char → ℕ × ℕ × List Char
  | acc, k, [] => (acc, k, ['_'])
  | acc, k, d :: cs =>
    if isDigit d then scanDigitsCont (acc * 10 + digitVal d) (k + 1) cs
    else (acc, k, '_' :: d :: cs)

end

/-- Greedy scan of a digit run for `float()` parsing: a run must start
with a digit (Python's grammar `digit (["_"] digit)*` — in particular a
leading underscore is rejected); returns the value, the number of
digits consumed, and the unconsumed rest. -/
def scanDigits : List Char → ℕ × ℕ × List Char
  | [] => (0, 0, [])
  | c :: cs =>
    if isDigit c then scanDigitsCont (digitVal c) 1 cs else (0, 0, c :: cs)

/-- Exponent part of a float literal: optional sign then a digit run. -/
def parseExponent : List Char → Option ℤ
  | '+' :: cs => (digitsVal cs).map (fun n => (n : ℤ))
  | '-' :: cs => (digitsVal cs).map (fun n => -(n : ℤ))
  | cs => (digitsVal cs).map (fun n => (n : ℤ))

def lowerAscii (c : Char) : Char :=
  if 'A' ≤ c && c ≤ 'Z' then Char.ofNat (c.toNat + 32) else c

/-- Numeric part of Python `float(token)` after the optional sign:
`digits [. digits] [e digits]` with at least one mantissa digit. -/
def pyFloatMantissa (cs : List Char) : Option ℚ :=
  let s1 := scanDigits cs
  match s1.2.2 with
  | [] => if s1.2.1 = 0 then none else some ((s1.1 : ℚ))
  | '.' :: cs2 =>
    let s2 := scanDigits cs2
    let ip := s1.1
    let fp := s2.1
    let fk := s2.2.1
    if s1.2.1 = 0 && fk = 0 then none
    else
      let base : ℚ := ((ip * 10 ^ fk + fp : ℕ) : ℚ) / ((10 ^ fk : ℕ) : ℚ)
      match s2.2.2 with
      | [] => some base
      | e :: cs3 =>
        if e = 'e' || e = 'E' then
          (parseExponent cs3).map (fun x => base * (10 : ℚ) ^ x)
        else none
  | e :: cs3 =>
    if (e = 'e' || e = 'E') && s1.2.1 ≠ 0 then
      (parseExponent cs3).map (fun x => ((s1.1 : ℕ) : ℚ) * (10 : ℚ) ^ x)
    else none

/-- Python `float(token)` after the optional sign. -/
def pyFloatUnsigned (cs : List Char) : Option PyFloat :=
  let low := cs.map lowerAscii
  if low = "inf".data || low = "infinity".data then some (.inf false)
  else if low = "nan".data then some .nan
  else (pyFloatMantissa cs).map PyFloat.finite

def pyFloatNeg : PyFloat → PyFloat
  | .finite q => .finite (-q)
  | .inf b => .inf (!b)
  | .nan => .nan

/-- Python `float(token)` on a whitespace-free token. -/
def pyFloatParse : List Char → Option PyFloat
  | '+' :: cs => pyFloatUnsigned cs
  | '-' :: cs => (pyFloatUnsigned cs).map pyFloatNeg
  | cs => pyFloatUnsigned cs

/-- `atom`: try `int(token)`, then `float(token)`, else a Symbol. -/
def atom (tok : List Char) : Exp :=
  match pyIntParse tok with
  | some n => .int n
  | none =>
    match pyFloatParse tok with
    | some f => .float f
    | none => .sym tok

/-! ## Reader (`read_from_tokens`) and `parse` -/

/-- The while-loop of `read_from_tokens` reading sub-terms until a `)`.
`rd` is the recursive reader; the `Nat` is fuel for this loop.  On an
exhausted token list the source evaluates `tokens[0]`, raising a host
`IndexError` (the loop checks the head, it does not re-check emptiness). -/
def readManyF (rd : List (List Char) → Except Err (Exp × List (List Char))) :
    ℕ → List (List Char) → Except Err (List Exp × List (List Char))
  | 0, _ => .error .outOfFuel
  | _ + 1, [] => .error .hostIndexError
  | n + 1, t :: rest =>
    if t = ")".data then .ok ([], rest)
    else
      match rd (t :: rest) with
      | .error e => .error e
      | .ok (x, r1) =>
        match readManyF rd n r1 with
        | .error e => .error e
        | .ok (xs, r2) => .ok (x :: xs, r2)

/-- `read_from_tokens`: pops one token; `(` opens a list read by the
loop above, a stray `)` raises `SyntaxError('unexpected )')`, an empty
sequence raises `SyntaxError('unexpected EOF')`, anything else is an
atom.  The fuel argument only bounds recursion depth. -/
def read_from_tokens : ℕ → List (List Char) → Except Err (Exp × List (List Char))
  | 0, _ => .error .outOfFuel
  | _ + 1, [] => .error .unexpectedEOF
  | fuel + 1, tok :: rest =>
    if tok = "(".data then
      match readManyF (read_from_tokens fuel) fuel rest with
      | .error e => .error e
      | .ok (xs, r) => .ok (.list xs, r)
    else if tok = ")".data then .error .unexpectedCloseParen
    else .ok (atom tok, rest)

/-- `parse`: tokenize then read one expression (trailing tokens are
silently discarded, as in the source).  One token is consumed before
each recursive descent, so `length + 1` fuel never runs out. -/
def parse (s : List Char) : Except Err Exp :=
  let toks := tokenize s
  match read_from_tokens (toks.length + 1) toks with
  | .error e => .error e
  | .ok (x, _) => .ok x

/-! ## Numeric views (Python numbers: `bool` is a subclass of `int`) -/

/-- Python numeric values for arithmetic and comparison dispatch. -/
inductive PyNum where
  | i : ℤ → PyNum
  | f : PyFloat → PyNum

/-- View an object as a Python number (`isinstance(x, (int, float))`):
ints, floats and bools qualify. -/
def asNum : Exp → Option PyNum
  | .int n => some (.i n)
  | .bool b => some (.i (if b then 1 else 0))
  | .float x => some (.f x)
  | _ => none

def toFloat : PyNum → PyFloat
  | .i n => .finite (n : ℚ)
  | .f x => x

/-- Python `==` on two numbers.  `nan` compares unequal to everything,
including itself. -/
def pyNumEq : PyNum → PyNum → Bool
  | .i a, .i b => a = b
  | .i a, .f x => match x with | .finite q => ((a : ℚ) = q : Bool) | _ => false
  | .f x, .i a => match x with | .finite q => ((a : ℚ) = q : Bool) | _ => false
  | .f x, .f y =>
    match x, y with
    | .finite p, .finite q => p = q
    | .inf s, .inf t => s = t
    | _, _ => false

/-- Python `<` on two numbers (`nan` makes every comparison false). -/
def pyNumLt : PyNum → PyNum → Bool
  | .i a, .i b => a < b
  | x, y =>
    match toFloat x, toFloat y with
    | .finite p, .finite q => p < q
    | .finite _, .inf s => !s
    | .inf s, .finite _ => s
    | .inf s, .inf t => s && !t
    | _, _ => false

/-- IEEE-style addition on the float model (rounding and overflow of
binary64 are not modelled). -/
def floatAdd : PyFloat → PyFloat → PyFloat
  | .finite p, .finite q => .finite (p + q)
  | .finite _, .inf s => .inf s
  | .inf s, .finite _ => .inf s
  | .inf s, .inf t => if s = t then .inf s else .nan
  | _, _ => .nan

def floatMul : PyFloat → PyFloat → PyFloat
  | .finite p, .finite q => .finite (p * q)
  | .finite p, .inf s => if p = 0 then .nan else .inf (xor (p < 0) s)
  | .inf s, .finite p => if p = 0 then .nan else .inf (xor (p < 0) s)
  | .inf s, .inf t => .inf (xor s t)
  | _, _ => .nan

/-- Float division with a nonzero divisor (zero divisors are rejected
with `ZeroDivisionError` before this is reached). -/
def floatDivNZ : PyFloat → PyFloat → PyFloat
  | .finite p, .finite q => .finite (p / q)
  | .finite _, .inf _ => .finite 0
  | .inf s, .finite p => .inf (xor (p < 0) s)
  | _, _ => .nan

/-! ## The primitive library (`standard_env`) -/

mutual

/-- Python `==` (`operator.eq`): numeric cross-type equality, strings,
element-wise lists; distinct types are unequal, `nan` equals nothing. -/
def pyEq : Exp → Exp → Bool
  | .list xs, .list ys => pyEqL xs ys
  | .sym a, .sym b => a = b
  | .prim p, .prim q => p = q
  | .pynone, .pynone => true
  | a, b =>
    match asNum a, asNum b with
    | some x, some y => pyNumEq x y
    | _, _ => false

def pyEqL : List Exp → List Exp → Bool
  | [], [] => true
  | x :: xs, y :: ys => pyEq x y && pyEqL xs ys
  | _, _ => false

end

mutual

/-- Python `<` (`operator.lt`): numbers, strings lexicographically by
code point, lists lexicographically (first non-`==` pair decides);
anything else is a `TypeError`. -/
def pyLt : Exp → Exp → Except Err Bool
  | .list xs, .list ys => pyLtL xs ys
  | .sym a, .sym b => .ok (decide (a < b))
  | a, b =>
    match asNum a, asNum b with
    | some x, some y => .ok (pyNumLt x y)
    | _, _ => .error .hostTypeError

def pyLtL : List Exp → List Exp → Except Err Bool
  | [], [] => .ok false
  | [], _ :: _ => .ok true
  | _ :: _, [] => .ok false
  | x :: xs, y :: ys => if pyEq x y then pyLtL xs ys else pyLt x y

end

/-- Python `>` : for the orderable types of this interpreter, `a > b`
behaves as `b < a`. -/
def pyGt (a b : Exp) : Except Err Bool := pyLt b a

/-- Python `>=` : `a > b` or `a == b` (false on `nan` either way). -/
def pyGe (a b : Exp) : Except Err Bool :=
  match pyLt b a with
  | .error e => .error e
  | .ok r => .ok (r || pyEq a b)

/-- Python `<=`. -/
def pyLe (a b : Exp) : Except Err Bool := pyGe b a

/-- Python `+` (`operator.add`): numbers, or concatenation of two
strings / two lists; otherwise `TypeError`. -/
def pyAdd (a b : Exp) : Except Err Exp :=
  match asNum a, asNum b with
  | some (.i x), some (.i y) => .ok (.int (x + y))
  | some x, some y => .ok (.float (floatAdd (toFloat x) (toFloat y)))
  | _, _ =>
    match a, b with
    | .sym x, .sym y => .ok (.sym (x ++ y))
    | .list x, .list y => .ok (.list (x ++ y))
    | _, _ => .error .hostTypeError

/-- Python `-` (`operator.sub`): numbers only. -/
def pySub (a b : Exp) : Except Err Exp :=
  match asNum a, asNum b with
  | some (.i x), some (.i y) => .ok (.int (x - y))
  | some x, some y => .ok (.float (floatAdd (toFloat x) (pyFloatNeg (toFloat y))))
  | _, _ => .error .hostTypeError

/-- Python `*` (`operator.mul`): numbers, or sequence repetition of a
string/list by an integral count (negative counts give empty). -/
def pyMul (a b : Exp) : Except Err Exp :=
  match asNum a, asNum b with
  | some (.i x), some (.i y) => .ok (.int (x * y))
  | some x, some y => .ok (.float (floatMul (toFloat x) (toFloat y)))
  | _, _ =>
    match a, b with
    | .sym s, _ =>
      match asNum b with
      | some (.i n) => .ok (.sym ((List.replicate n.toNat s).flatten))
      | _ => .error .hostTypeError
    | _, .sym s =>
      match asNum a with
      | some (.i n) => .ok (.sym ((List.replicate n.toNat s).flatten))
      | _ => .error .hostTypeError
    | .list l, _ =>
      match asNum b with
      | some (.i n) => .ok (.list ((List.replicate n.toNat l).flatten))
      | _ => .error .hostTypeError
    | _, .list l =>
      match asNum a with
      | some (.i n) => .ok (.list ((List.replicate n.toNat l).flatten))
      | _ => .error .hostTypeError
    | _, _ => .error .hostTypeError

/-- Python `/` (`operator.truediv`): true division; an int/int quotient
is a float; a divisor equal to zero raises `ZeroDivisionError`. -/
def pyDiv (a b : Exp) : Except Err Exp :=
  match asNum a, asNum b with
  | some x, some y =>
    match y with
    | .i n => if n = 0 then .error .zeroDivision
              else .ok (.float (floatDivNZ (toFloat x) (.finite (n : ℚ))))
    | .f (.finite q) => if q = 0 then .error .zeroDivision
                        else .ok (.float (floatDivNZ (toFloat x) (.finite q)))
    | .f fy => .ok (.float (floatDivNZ (toFloat x) fy))
  | _, _ => .error .hostTypeError

/-- Subscription `x[i]` for a nonnegative literal index, as used by the
`car`/`cdr` lambdas: lists index into their elements, strings into
one-character strings; out-of-range is `IndexError`, any other receiver
(numbers, bools, functions, `None`) is `TypeError`. -/
def pyIndex (a : Exp) (i : ℕ) : Except Err Exp :=
  match a with
  | .list xs =>
    match xs.get? i with
    | some v => .ok v
    | none => .error .hostIndexError
  | .sym s =>
    match s.get? i with
    | some c => .ok (.sym [c])
    | none => .error .hostIndexError
  | _ => .error .hostTypeError

/-- `isinstance(x, Atom)` with `Atom = (str, int, float)`; Python bools
are ints, so they count. -/
def isAtomObj : Exp → Bool
  | .sym _ => true
  | .int _ => true
  | .float _ => true
  | .bool _ => true
  | _ => false

/-- Application of a primitive to evaluated arguments.  A wrong argument
count is a Python `TypeError` from the call. -/
def applyPrim : Prim → List Exp → Except Err Exp
  | .add, [a, b] => pyAdd a b
  | .sub, [a, b] => pySub a b
  | .mul, [a, b] => pyMul a b
  | .div, [a, b] => pyDiv a b
  | .gt, [a, b] => match pyGt a b with | .error e => .error e | .ok r => .ok (.bool r)
  | .lt, [a, b] => match pyLt a b with | .error e => .error e | .ok r => .ok (.bool r)
  | .ge, [a, b] => match pyGe a b with | .error e => .error e | .ok r => .ok (.bool r)
  | .le, [a, b] => match pyLe a b with | .error e => .error e | .ok r => .ok (.bool r)
  | .eq, [a, b] => .ok (.bool (pyEq a b))
  | .cons, [a, b] => .ok (.list [a, b])
  | .car, [a] => pyIndex a 0
  | .cdr, [a] => pyIndex a 1
  | .atomTest, [a] => .ok (.bool (isAtomObj a))
  | _, _ => .error .hostTypeError

/-! ## Environments -/

/-- An Environment: the Python dict is modelled as an insertion list;
`envSet` prepends so that the newest binding shadows older ones, which
is lookup-equivalent to in-place overwriting. -/
def Env := List (Exp × Exp)

/-- Equality of dict keys.  Python compares keys with `==`; only
hashable objects (here: everything but lists) can be stored, so the
recursive list case of `==` is not needed.  The identity-based corner of
`nan` keys is not modelled. -/
def keyEq (a b : Exp) : Bool :=
  match a, b with
  | .sym x, .sym y => x = y
  | .prim p, .prim q => p = q
  | .pynone, .pynone => true
  | a, b =>
    match asNum a, asNum b with
    | some x, some y => pyNumEq x y
    | _, _ => false

def envLookup (k : Exp) : Env → Option Exp
  | [] => none
  | (k2, v) :: rest => if keyEq k k2 then some v else envLookup k rest

/-- `env[k] = v` (dict assignment). -/
def envSet (k v : Exp) (env : Env) : Env := (k, v) :: env

/-- Python hashability of the objects of this interpreter: everything
except lists. -/
def isHashable : Exp → Bool
  | .list _ => false
  | _ => true

/-- `standard_env()`: the primitive library bindings. -/
def standard_env : Env :=
  [(.sym "+".data, .prim .add),
   (.sym "-".data, .prim .sub),
   (.sym "*".data, .prim .mul),
   (.sym "/".data, .prim .div),
   (.sym ">".data, .prim .gt),
   (.sym "<".data, .prim .lt),
   (.sym ">=".data, .prim .ge),
   (.sym "<=".data, .prim .le),
   (.sym "eq".data, .prim .eq),
   (.sym "cons".data, .prim .cons),
   (.sym "car".data, .prim .car),
   (.sym "cdr".data, .prim .cdr),
   (.sym "atom".data, .prim .atomTest)]

/-! ## The evaluator (`lisp_eval`) -/

/-- Python truthiness (`bool(x)`): false for `False`, zero numbers,
empty strings, empty lists and `None`; everything else is truthy. -/
def pyTruthy : Exp → Bool
  | .int n => n ≠ 0
  | .float x => match x with | .finite q => q ≠ 0 | _ => true
  | .bool b => b
  | .sym s => !s.isEmpty
  | .list xs => !xs.isEmpty
  | .prim _ => true
  | .pynone => false

/-- Does this object equal the Python string `name` (the `x[0] ==
'quote'` test)?  Only a `str` can. -/
def isSymNamed (x : Exp) (name : String) : Bool :=
  match x with
  | .sym s => s = name.data
  | _ => false

/-- Left-to-right evaluation of operand lists, threading the (mutable)
environment.  `ev` is the recursive evaluator. -/
def evalArgsF (ev : Exp → Env → Except Err (Exp × Env)) :
    List Exp → Env → Except Err (List Exp × Env)
  | [], env => .ok ([], env)
  | a :: rest, env =>
    match ev a env with
    | .error e => .error e
    | .ok (v, env1) =>
      match evalArgsF ev rest env1 with
      | .error e => .error e
      | .ok (vs, env2) => .ok (v :: vs, env2)

/-- `lisp_eval`.  The result pairs the returned object with the
environment after evaluation (Python mutates `env` in place; a `define`
returns `None`, modelled by `pynone`).  The `isinstance` chain makes
symbols and numbers (including bools) self-contained cases; `None` and
function objects fall through to `x[0]`, a `TypeError`.  A non-symbol
head can never equal the strings `quote`/`if`/`define`, so those lists
go to the application case.  Wrong operand counts to the three special
forms are `ValueError`s from tuple unpacking.  Fuel is decremented once
per recursion level; the Python recursion is structural in the term, so
any fuel exceeding the term depth behaves identically. -/
def lisp_eval : ℕ → Exp → Env → Except Err (Exp × Env)
  | 0, _, _ => .error .outOfFuel
  | _ + 1, .sym s, env =>
    match envLookup (.sym s) env with
    | some v => .ok (v, env)
    | none => .error (.keyError (.sym s))
  | _ + 1, .int n, env => .ok (.int n, env)
  | _ + 1, .float x, env => .ok (.float x, env)
  | _ + 1, .bool b, env => .ok (.bool b, env)
  | _ + 1, .pynone, _ => .error .hostTypeError
  | _ + 1, .prim _, _ => .error .hostTypeError
  | _ + 1, .list [], _ => .error .hostIndexError
  | fuel + 1, .list (x0 :: opnds), env =>
    if isSymNamed x0 "quote" then
      match opnds with
      | [r] => .ok (r, env)
      | _ => .error .hostValueError
    else if isSymNamed x0 "if" then
      match opnds with
      | [c, t, e] =>
        match lisp_eval fuel c env with
        | .error er => .error er
        | .ok (v, env1) =>
          if pyTruthy v then lisp_eval fuel t env1 else lisp_eval fuel e env1
      | _ => .error .hostValueError
    else if isSymNamed x0 "define" then
      match opnds with
      | [k, e] =>
        match lisp_eval fuel e env with
        | .error er => .error er
        | .ok (v, env1) =>
          if isHashable k then .ok (.pynone, envSet k v env1)
          else .error .hostTypeError
      | _ => .error .hostValueError
    else
      match lisp_eval fuel x0 env with
      | .error er => .error er
      | .ok (procv, env1) =>
        match evalArgsF (lisp_eval fuel) opnds env1 with
        | .error er => .error er
        | .ok (argv, env2) =>
          match procv with
          | .prim p =>
            match applyPrim p argv with
            | .error er => .error er
            | .ok v => .ok (v, env2)
          | _ => .error .hostTypeError

/-! ## Term depth and a top-level driver -/

mutual

/-- Nesting depth of a term; `lisp_eval` only ever recurses into proper
subterms, so depth bounds the recursion. -/
def expDepth : Exp → ℕ
  | .list xs => expDepthL xs + 1
  | _ => 1

def expDepthL : List Exp → ℕ
  | [] => 0
  | x :: xs => max (expDepth x) (expDepthL xs)

end

/-- One read-eval step of the REPL body: `lisp_eval(parse(s), env)`,
with fuel exceeding the parsed term's depth. -/
def runLine (s : List Char) (env : Env) : Except Err (Exp × Env) :=
  match parse s with
  | .error e => .error e
  | .ok t => lisp_eval (expDepth t + 1) t env

/-! ## The printer (`lisp_str`) -/

def digitChar : ℕ → Char
  | 0 => '0' | 1 => '1' | 2 => '2' | 3 => '3' | 4 => '4'
  | 5 => '5' | 6 => '6' | 7 => '7' | 8 => '8' | _ => '9'

/-- Decimal digits of a natural number, most significant first; the fuel
argument only bounds the division chain (`n + 1` always suffices). -/
def natDigitsAux : ℕ → ℕ → List Char → List Char
  | 0, _, acc => acc
  | fuel + 1, n, acc =>
    if n < 10 then digitChar n :: acc
    else natDigitsAux fuel (n / 10) (digitChar (n % 10) :: acc)

def natDigits (n : ℕ) : List Char := natDigitsAux (n + 1) n []

/-- Python `str()` of an int. -/
def intRepr : ℤ → List Char
  | .ofNat n => natDigits n
  | .negSucc m => '-' :: natDigits (m + 1)

/-- Python `str()` of a bool. -/
def pyBoolRepr (b : Bool) : List Char :=
  if b then "True".data else "False".data

/-- Python `str()` of a float.  The `inf`/`nan` spellings are Python's;
the finite case is a placeholder fraction spelling — CPython prints the
shortest decimal that reparses to the same binary64, which the rational
abstraction cannot express.  No theorem depends on this case. -/
def pyFloatRepr : PyFloat → List Char
  | .inf false => "inf".data
  | .inf true => "-inf".data
  | .nan => "nan".data
  | .finite q => intRepr q.num ++ '/' :: natDigits q.den

/-- Python `str()` of a primitive function object (a placeholder for
CPython's `<built-in function ...>`; no theorem depends on it). -/
def primRepr (_ : Prim) : List Char := "<function>".data

mutual

/-- `lisp_str`: lists print as `(` + space-joined elements + `)`, other
objects by Python `str()`. -/
def lisp_str : Exp → List Char
  | .list xs => '(' :: lispStrJoin xs ++ [')']
  | .int n => intRepr n
  | .float x => pyFloatRepr x
  | .sym s => s
  | .bool b => pyBoolRepr b
  | .prim p => primRepr p
  | .pynone => "None".data

/-- `' '.join(map(lisp_str, xs))`. -/
def lispStrJoin : List Exp → List Char
  | [] => []
  | [x] => lisp_str x
  | x :: y :: xs => lisp_str x ++ ' ' :: lispStrJoin (y :: xs)

end

/-! ## Token sequences of rendered terms -/

mutual

/-- The token sequence a well-formed term renders to (specification
device for the round-trip proof; compared against `tokenize ∘ lisp_str`). -/
def flatTok : Exp → List (List Char)
  | .list xs => "(".data :: flatTokL xs ++ [")".data]
  | .int n => [intRepr n]
  | .float x => [pyFloatRepr x]
  | .sym s => [s]
  | .bool b => [pyBoolRepr b]
  | .prim p => [primRepr p]
  | .pynone => ["None".data]

def flatTokL : List Exp → List (List Char)
  | [] => []
  | x :: xs => flatTok x ++ flatTokL xs

end

/-- A character that can sit inside a Symbol token without disturbing
the tokenizer: not whitespace and not a parenthesis. -/
def plainChar (c : Char) : Bool :=
  !isPySpace c && c ≠ '(' && c ≠ ')'

/-- Is this character plain ASCII?  CPython's `int()` and `float()`
accept non-ASCII unicode decimal digits (e.g. `int('٣') = 3`) and
`str.split()` splits on non-ASCII whitespace (e.g. U+00A0), none of
which the embedded parsers model; symbol spellings are therefore
confined to ASCII, where the embedded parsers coincide with CPython. -/
def isAscii (c : Char) : Bool := c.toNat < 128

/-- A Symbol spelling that the reader maps back to the same Symbol:
nonempty, ASCII, free of whitespace and parens, and classified as a
Symbol by `atom` (it parses neither as an int nor as a float). -/
def goodSymTok (s : List Char) : Bool :=
  !s.isEmpty && s.all isAscii && s.all plainChar &&
    (pyIntParse s).isNone && (pyFloatParse s).isNone

mutual

/-- Terms containing only integer Numbers and well-formed Symbols
(the hypotheses of the round-trip property). -/
def wfTerm : Exp → Bool
  | .int _ => true
  | .sym s => goodSymTok s
  | .list xs => wfTermL xs
  | _ => false

def wfTermL : List Exp → Bool
  | [] => true
  | x :: xs => wfTerm x && wfTermL xs

end

/-- The combined effect of the two `replace` calls of `tokenize` on one
character. -/
def expandChar (c : Char) : List Char :=
  if c = '(' then " ( ".data else if c = ')' then " ) ".data else [c]

def expandStr (s : List Char) : List Char := (s.map expandChar).flatten

/-- Does this text begin with whitespace (or end)?  Guard used when
splitting a token off the front. -/
def spacedNext : List Char → Bool
  | [] => true
  | c :: _ => isPySpace c

/-- The spec grammar for an exact-integer token: an optional leading
sign followed by one or more digits (and nothing else). -/
def specIntToken : List Char → Bool
  | '+' :: rest => !rest.isEmpty && rest.all isDigit
  | '-' :: rest => !rest.isEmpty && rest.all isDigit
  | s => !s.isEmpty && s.all isDigit

/-- Decimal value of a digit string (big-endian). -/
def digitsFold (s : List Char) : ℕ :=
  s.foldl (fun a c => a * 10 + digitVal c) 0

/-- Round-trip property of the reader on one term: with enough fuel, the
token sequence of a well-formed term reads back as exactly that term,
leaving the remaining tokens untouched. -/
def ReadBack (t : Exp) : Prop :=
  wfTerm t = true → ∀ fuel rest, (flatTok t).length ≤ fuel →
    read_from_tokens fuel (flatTok t ++ rest) = .ok (t, rest)

/-- Round-trip property of the tokenizer on one term: splitting the
expanded rendering recovers the term's token sequence.  For an atom the
following text must start with whitespace (or end) so the final token is
not glued to it; a list ends in `)` whose expansion supplies the space. -/
def SplitBack (t : Exp) : Prop :=
  wfTerm t = true → ∀ l, (spacedNext l = true ∨ ∃ ys, t = .list ys) →
    pySplitAux (expandStr (lisp_str t) ++ l) [] = flatTok t ++ pySplitAux l []

/-! ## Lemmas: decimal rendering of integers -/

lemma isDigit_digitChar (n : ℕ) : isDigit (digitChar n) = true := by
  unfold digitChar
  split <;> decide

lemma plainChar_digitChar (n : ℕ) : plainChar (digitChar n) = true := by
  unfold digitChar
  split <;> decide

lemma digitVal_digitChar (n : ℕ) (h : n < 10) : digitVal (digitChar n) = n := by
  interval_cases n <;> decide

lemma natDigitsAux_mem (fuel n : ℕ) (acc : List Char) (c : Char)
    (hc : c ∈ natDigitsAux fuel n acc) : c ∈ acc ∨ ∃ m, c = digitChar m := by
  induction fuel generalizing n acc with
  | zero => exact .inl hc
  | succ fuel ih =>
    unfold natDigitsAux at hc
    by_cases h : n < 10
    · rw [if_pos h] at hc
      rcases List.mem_cons.mp hc with h1 | h1
      · exact .inr ⟨n, h1⟩
      · exact .inl h1
    · rw [if_neg h] at hc
      rcases ih _ _ hc with h1 | h1
      · rcases List.mem_cons.mp h1 with h2 | h2
        · exact .inr ⟨n % 10, h2⟩
        · exact .inl h2
      · exact .inr h1

lemma natDigits_plain (n : ℕ) (c : Char) (hc : c ∈ natDigits n) :
    plainChar c = true := by
  rcases natDigitsAux_mem _ _ _ _ hc with h | ⟨m, rfl⟩
  · simp at h
  · exact plainChar_digitChar m

lemma natDigits_digit (n : ℕ) (c : Char) (hc : c ∈ natDigits n) :
    isDigit c = true := by
  rcases natDigitsAux_mem _ _ _ _ hc with h | ⟨m, rfl⟩
  · simp at h
  · exact isDigit_digitChar m

lemma natDigitsAux_append (fuel n : ℕ) (acc : List Char) (h : n < fuel) :
    natDigitsAux fuel n acc = natDigitsAux fuel n [] ++ acc := by
  induction fuel generalizing n acc with
  | zero => omega
  | succ fuel ih =>
    unfold natDigitsAux
    by_cases h10 : n < 10
    · simp [h10]
    · have hlt : n / 10 < fuel := by omega
      simp only [h10, if_neg, not_false_iff]
      rw [ih _ _ hlt, ih _ [digitChar (n % 10)] hlt, List.append_assoc]
      rfl

lemma natDigitsAux_fuel (fuel fuel2 n : ℕ) (acc : List Char)
    (h : n < fuel) (h2 : n < fuel2) :
    natDigitsAux fuel n acc = natDigitsAux fuel2 n acc := by
  induction fuel generalizing fuel2 n acc with
  | zero => omega
  | succ fuel ih =>
    cases fuel2 with
    | zero => omega
    | succ fuel2 =>
      unfold natDigitsAux
      by_cases h10 : n < 10
      · simp [h10]
      · have hd : n / 10 < n := Nat.div_lt_self (by omega) (by omega)
        simp only [h10, if_neg, not_false_iff]
        exact ih _ _ _ (by omega) (by omega)

lemma natDigitsAux_ne_nil (fuel n : ℕ) (acc : List Char) (h : n < fuel) :
    natDigitsAux fuel n acc ≠ [] := by
  induction fuel generalizing n acc with
  | zero => omega
  | succ fuel ih =>
    unfold natDigitsAux
    by_cases h10 : n < 10
    · simp [h10]
    · have hd : n / 10 < n := Nat.div_lt_self (by omega) (by omega)
      simp only [h10, if_neg, not_false_iff]
      exact ih _ _ (by omega)

lemma natDigits_ne_nil (n : ℕ) : natDigits n ≠ [] :=
  natDigitsAux_ne_nil _ _ _ (Nat.lt_succ_self n)

lemma digitsFold_append (s : List Char) (c : Char) :
    digitsFold (s ++ [c]) = digitsFold s * 10 + digitVal c := by
  simp [digitsFold, List.foldl_append]

lemma digitsFold_natDigits (n : ℕ) : digitsFold (natDigits n) = n := by
  induction n using Nat.strong_induction_on with
  | _ n ih =>
    unfold natDigits natDigitsAux
    by_cases h10 : n < 10
    · simp only [h10, if_pos]
      simp [digitsFold, digitVal_digitChar n h10]
    · have hd : n / 10 < n := Nat.div_lt_self (by omega) (by omega)
      simp only [h10, if_neg, not_false_iff]
      rw [natDigitsAux_append _ _ _ (by omega),
        natDigitsAux_fuel n (n / 10 + 1) (n / 10) [] (by omega) (by omega),
        show natDigitsAux (n / 10 + 1) (n / 10) [] = natDigits (n / 10) from rfl,
        digitsFold_append, ih _ hd, digitVal_digitChar _ (by omega)]
      omega

/-! ## Lemmas: `atom` recovers rendered atoms -/

lemma digitsCore_digits (ds : List Char) (hall : ∀ c ∈ ds, isDigit c = true)
    (a : ℕ) : digitsCore a ds = some (ds.foldl (fun x c => x * 10 + digitVal c) a) := by
  induction ds generalizing a with
  | nil => rfl
  | cons c cs ih =>
    have hc := hall c (by simp)
    simp only [digitsCore, hc, if_pos, List.foldl_cons]
    exact ih (fun d hd => hall d (by simp [hd])) _

lemma digitsVal_digits (ds : List Char) (hne : ds ≠ [])
    (hall : ∀ c ∈ ds, isDigit c = true) :
    digitsVal ds = some (digitsFold ds) := by
  cases ds with
  | nil => exact absurd rfl hne
  | cons c cs =>
    have hc := hall c (by simp)
    rw [digitsVal, if_pos hc, digitsCore_digits _ (fun d hd => hall d (by simp [hd]))]
    have h0 : (0 : ℕ) * 10 + digitVal c = digitVal c := by omega
    rw [digitsFold, List.foldl_cons, h0]

lemma isDigit_ne_plus (c : Char) (h : isDigit c = true) : c ≠ '+' := by
  intro he
  subst he
  simp [isDigit] at h

lemma isDigit_ne_minus (c : Char) (h : isDigit c = true) : c ≠ '-' := by
  intro he
  subst he
  simp [isDigit] at h

lemma pyIntParse_digits (ds : List Char) (hne : ds ≠ [])
    (hall : ∀ c ∈ ds, isDigit c = true) :
    pyIntParse ds = some ((digitsFold ds : ℕ) : ℤ) := by
  cases ds with
  | nil => exact absurd rfl hne
  | cons c cs =>
    have hplus := isDigit_ne_plus c (hall c (by simp))
    have hminus := isDigit_ne_minus c (hall c (by simp))
    have hv := digitsVal_digits (c :: cs) hne hall
    unfold pyIntParse
    split
    · rename_i heq
      rw [List.cons.injEq] at heq
      exact absurd heq.1 hplus
    · rename_i heq
      rw [List.cons.injEq] at heq
      exact absurd heq.1 hminus
    · rw [hv]
      rfl

lemma pyIntParse_intRepr (n : ℤ) : pyIntParse (intRepr n) = some n := by
  cases n with
  | ofNat m =>
    rw [intRepr, pyIntParse_digits _ (natDigits_ne_nil m) (natDigits_digit m),
      digitsFold_natDigits]
    rfl
  | negSucc m =>
    rw [intRepr]
    have hv := digitsVal_digits (natDigits (m + 1)) (natDigits_ne_nil _)
      (natDigits_digit _)
    rw [show pyIntParse ('-' :: natDigits (m + 1)) =
        (digitsVal (natDigits (m + 1))).map (fun k => -(k : ℤ)) from rfl,
      hv, digitsFold_natDigits]
    simp [Int.negSucc_eq]

lemma atom_intRepr (n : ℤ) : atom (intRepr n) = .int n := by
  rw [atom, pyIntParse_intRepr]

lemma goodSymTok_fields (s : List Char) (h : goodSymTok s = true) :
    s ≠ [] ∧ (∀ c ∈ s, plainChar c = true) ∧
      pyIntParse s = none ∧ pyFloatParse s = none := by
  rw [goodSymTok] at h
  simp only [Bool.and_eq_true, List.all_eq_true, Bool.not_eq_true'] at h
  obtain ⟨⟨⟨⟨h1, hA⟩, h2⟩, h3⟩, h4⟩ := h
  refine ⟨?_, h2, ?_, ?_⟩
  · intro he
    rw [he] at h1
    simp at h1
  · rwa [Option.isNone_iff_eq_none] at h3
  · rwa [Option.isNone_iff_eq_none] at h4

lemma atom_goodSym (s : List Char) (h : goodSymTok s = true) :
    atom s = .sym s := by
  obtain ⟨-, -, hi, hf⟩ := goodSymTok_fields s h
  rw [atom, hi, hf]

lemma plainChar_not_space (c : Char) (h : plainChar c = true) :
    isPySpace c = false := by
  rw [plainChar] at h
  simp only [Bool.and_eq_true, Bool.not_eq_true'] at h
  exact h.1.1

lemma plain_ne_open (tk : List Char) (hall : ∀ c ∈ tk, plainChar c = true) :
    tk ≠ "(".data := by
  intro he
  have := hall '(' (by rw [he]; decide)
  simp [plainChar] at this

lemma plain_ne_close (tk : List Char) (hall : ∀ c ∈ tk, plainChar c = true) :
    tk ≠ ")".data := by
  intro he
  have := hall ')' (by rw [he]; decide)
  simp [plainChar] at this

/-! ## Lemmas: the reader re-reads rendered token sequences -/

lemma expDepth_pos (t : Exp) : 0 < expDepth t := by
  cases t <;> simp [expDepth]

lemma expDepthL_mem (x : Exp) (xs : List Exp) (hx : x ∈ xs) :
    expDepth x ≤ expDepthL xs := by
  induction xs with
  | nil => simp at hx
  | cons y ys ih =>
    rw [expDepthL]
    rcases List.mem_cons.mp hx with h | h
    · subst h
      exact le_max_left _ _
    · exact le_trans (ih h) (le_max_right _ _)

lemma flatTok_ne_nil (t : Exp) : flatTok t ≠ [] := by
  cases t <;> simp [flatTok]

lemma flatTokL_mem_le (x : Exp) (xs : List Exp) (hx : x ∈ xs) :
    (flatTok x).length ≤ (flatTokL xs).length := by
  induction xs with
  | nil => simp at hx
  | cons y ys ih =>
    rw [flatTokL, List.length_append]
    rcases List.mem_cons.mp hx with h | h
    · subst h
      omega
    · have := ih h
      omega

lemma intRepr_plain (n : ℤ) (c : Char) (hc : c ∈ intRepr n) :
    plainChar c = true := by
  cases n with
  | ofNat m => exact natDigits_plain _ _ hc
  | negSucc m =>
    rw [intRepr] at hc
    rcases List.mem_cons.mp hc with h | h
    · subst h
      decide
    · exact natDigits_plain _ _ h

lemma intRepr_ne_nil (n : ℤ) : intRepr n ≠ [] := by
  cases n with
  | ofNat m => exact natDigits_ne_nil m
  | negSucc m => simp [intRepr]

lemma wfTerm_flatTok_shape (t : Exp) (h : wfTerm t = true) :
    ∃ tk tks, flatTok t = tk :: tks ∧ tk ≠ ")".data := by
  cases t with
  | int n => exact ⟨_, _, rfl, plain_ne_close _ (intRepr_plain n)⟩
  | sym s =>
    have hp := (goodSymTok_fields s (by simpa [wfTerm] using h)).2.1
    exact ⟨_, _, rfl, plain_ne_close _ hp⟩
  | list xs => exact ⟨_, _, rfl, by decide⟩
  | float x => simp [wfTerm] at h
  | bool b => simp [wfTerm] at h
  | prim p => simp [wfTerm] at h
  | pynone => simp [wfTerm] at h

lemma readMany_flatTokL (xs : List Exp) (hIH : ∀ x ∈ xs, ReadBack x)
    (hwf : wfTermL xs = true) :
    ∀ fR fL rest, (∀ x ∈ xs, (flatTok x).length ≤ fR) →
      (flatTokL xs).length < fL →
      readManyF (read_from_tokens fR) fL (flatTokL xs ++ ")".data :: rest) =
        .ok (xs, rest) := by
  induction xs with
  | nil =>
    intro fR fL rest hfR hfL
    cases fL with
    | zero => omega
    | succ n => rw [flatTokL, List.nil_append, readManyF, if_pos rfl]
  | cons x xs2 ih =>
    intro fR fL rest hfR hfL
    have hwx : wfTerm x = true ∧ wfTermL xs2 = true := by
      have := hwf
      rw [wfTermL, Bool.and_eq_true] at this
      exact this
    obtain ⟨tk, tks, hsh, htk⟩ := wfTerm_flatTok_shape x hwx.1
    have hlenx : 0 < (flatTok x).length :=
      List.length_pos.mpr (flatTok_ne_nil x)
    rw [flatTokL] at hfL
    rw [List.length_append] at hfL
    cases fL with
    | zero => omega
    | succ n =>
      have hx1 := hIH x (by simp) hwx.1 fR (flatTokL xs2 ++ ")".data :: rest)
        (hfR x (by simp))
      have hx2 := ih (fun y hy => hIH y (by simp [hy])) hwx.2 fR n rest
        (fun y hy => hfR y (by simp [hy])) (by omega)
      rw [flatTokL, List.append_assoc, hsh, List.cons_append, readManyF,
        if_neg (by simpa using htk)]
      rw [← List.cons_append, ← hsh]
      simp only [hx1, hx2]

lemma readBack_depth (N : ℕ) : ∀ t, expDepth t ≤ N → ReadBack t := by
  induction N with
  | zero =>
    intro t h
    have := expDepth_pos t
    omega
  | succ N ih =>
    intro t hd hwf fuel rest hfuel
    cases t with
    | int n =>
      rw [flatTok] at hfuel ⊢
      cases fuel with
      | zero => simp at hfuel
      | succ f =>
        rw [List.cons_append, List.nil_append, read_from_tokens,
          if_neg (plain_ne_open _ (intRepr_plain n)),
          if_neg (plain_ne_close _ (intRepr_plain n)), atom_intRepr]
    | sym s =>
      have hg : goodSymTok s = true := by simpa [wfTerm] using hwf
      have hp := (goodSymTok_fields s hg).2.1
      rw [flatTok] at hfuel ⊢
      cases fuel with
      | zero => simp at hfuel
      | succ f =>
        rw [List.cons_append, List.nil_append, read_from_tokens,
          if_neg (plain_ne_open _ hp), if_neg (plain_ne_close _ hp),
          atom_goodSym s hg]
    | list xs =>
      have hwl : wfTermL xs = true := by simpa [wfTerm] using hwf
      rw [flatTok] at hfuel ⊢
      have hfuel2 : (flatTokL xs).length + 2 ≤ fuel := by
        simpa using hfuel
      clear hfuel
      cases fuel with
      | zero => omega
      | succ f =>
        rw [show ("(".data :: flatTokL xs ++ [")".data]) ++ rest =
          "(".data :: (flatTokL xs ++ ")".data :: rest) by simp]
        rw [show read_from_tokens (f + 1) ("(".data :: (flatTokL xs ++ ")".data :: rest)) =
            (match readManyF (read_from_tokens f) f (flatTokL xs ++ ")".data :: rest) with
             | .error e => .error e
             | .ok (ys, r) => .ok (.list ys, r)) from rfl]
        have hIH : ∀ x ∈ xs, ReadBack x := by
          intro x hx
          refine ih x ?_
          have h1 := expDepthL_mem x xs hx
          rw [expDepth] at hd
          omega
        have hfR : ∀ x ∈ xs, (flatTok x).length ≤ f := by
          intro x hx
          have := flatTokL_mem_le x xs hx
          omega
        rw [readMany_flatTokL xs hIH hwl f f rest hfR (by omega)]
    | float x => simp [wfTerm] at hwf
    | bool b => simp [wfTerm] at hwf
    | prim p => simp [wfTerm] at hwf
    | pynone => simp [wfTerm] at hwf

lemma readBack (t : Exp) : ReadBack t := readBack_depth (expDepth t) t le_rfl

/-! ## Lemmas: tokenizing a rendered term yields its token sequence -/

lemma expandStr_nil : expandStr [] = [] := rfl

lemma expandStr_cons (c : Char) (s : List Char) :
    expandStr (c :: s) = expandChar c ++ expandStr s := by
  simp [expandStr]

lemma expandStr_append (a b : List Char) :
    expandStr (a ++ b) = expandStr a ++ expandStr b := by
  simp [expandStr]

lemma expandChar_plain (c : Char) (h : plainChar c = true) :
    expandChar c = [c] := by
  rw [plainChar] at h
  simp only [Bool.and_eq_true, Bool.not_eq_true', decide_eq_true_eq] at h
  rw [expandChar, if_neg h.1.2, if_neg h.2]

lemma expandStr_plain (s : List Char) (h : ∀ c ∈ s, plainChar c = true) :
    expandStr s = s := by
  induction s with
  | nil => rfl
  | cons c cs ih =>
    rw [expandStr_cons, expandChar_plain c (h c (by simp)),
      ih (fun d hd => h d (by simp [hd]))]
    rfl

lemma pyReplace_cons (c : Char) (s : List Char) (k : Char) (r : List Char) :
    pyReplace (c :: s) k r = (if c = k then r else [c]) ++ pyReplace s k r := by
  simp [pyReplace]

lemma pyReplace_append (a b : List Char) (k : Char) (r : List Char) :
    pyReplace (a ++ b) k r = pyReplace a k r ++ pyReplace b k r := by
  simp [pyReplace]

lemma tokenize_expand (s : List Char) : tokenize s = pySplit (expandStr s) := by
  rw [tokenize]
  congr 1
  induction s with
  | nil => rfl
  | cons c cs ih =>
    rw [pyReplace_cons, pyReplace_append, ih, expandStr_cons]
    congr 1
    by_cases h1 : c = '('
    · subst h1
      rfl
    · rw [if_neg h1]
      by_cases h2 : c = ')'
      · subst h2
        rfl
      · rw [expandChar, if_neg h1, if_neg h2]
        simp [pyReplace, h2]

lemma pySplitAux_chunk (tk : List Char) (hns : ∀ c ∈ tk, isPySpace c = false) :
    ∀ l acc, pySplitAux (tk ++ l) acc = pySplitAux l (tk.reverse ++ acc) := by
  induction tk with
  | nil => simp
  | cons c cs ih =>
    intro l acc
    rw [List.cons_append, pySplitAux,
      if_neg (by rw [hns c (by simp)]; exact Bool.false_ne_true),
      ih (fun d hd => hns d (by simp [hd]))]
    congr 1
    simp

lemma pySplitAux_space (c : Char) (h : isPySpace c = true) (l : List Char) :
    pySplitAux (c :: l) [] = pySplitAux l [] := by
  rw [pySplitAux, if_pos h]
  simp

lemma pySplit_token (tk l : List Char) (hne : tk ≠ [])
    (hns : ∀ c ∈ tk, isPySpace c = false) (hnext : spacedNext l = true) :
    pySplitAux (tk ++ l) [] = tk :: pySplitAux l [] := by
  rw [pySplitAux_chunk tk hns l []]
  cases l with
  | nil =>
    rw [pySplitAux, if_neg (by simpa using hne)]
    simp [pySplitAux]
  | cons c l2 =>
    have hc : isPySpace c = true := by simpa [spacedNext] using hnext
    rw [pySplitAux, if_pos hc, if_neg (by simpa using hne),
      pySplitAux_space c hc]
    simp

lemma splitJoin (xs : List Exp) (hIH : ∀ x ∈ xs, SplitBack x)
    (hwf : wfTermL xs = true) :
    ∀ l, spacedNext l = true →
      pySplitAux (expandStr (lispStrJoin xs) ++ l) [] =
        flatTokL xs ++ pySplitAux l [] := by
  induction xs with
  | nil =>
    intro l h
    rw [lispStrJoin, expandStr_nil, List.nil_append, flatTokL, List.nil_append]
  | cons x xs2 ih =>
    have hwx : wfTerm x = true ∧ wfTermL xs2 = true := by
      have := hwf
      rw [wfTermL, Bool.and_eq_true] at this
      exact this
    cases xs2 with
    | nil =>
      intro l h
      rw [lispStrJoin]
      have := hIH x (by simp) hwx.1 l (.inl h)
      rw [this, flatTokL, flatTokL, List.append_nil]
    | cons y ys =>
      intro l h
      have hx := hIH x (by simp) hwx.1
        (' ' :: (expandStr (lispStrJoin (y :: ys)) ++ l)) (.inl rfl)
      rw [lispStrJoin, expandStr_append, expandStr_cons,
        show expandChar ' ' = [' '] from rfl]
      rw [show (expandStr (lisp_str x) ++ ([' '] ++ expandStr (lispStrJoin (y :: ys)))) ++ l =
        expandStr (lisp_str x) ++ (' ' :: (expandStr (lispStrJoin (y :: ys)) ++ l)) by simp]
      rw [hx, pySplitAux_space ' ' rfl,
        ih (fun z hz => hIH z (by simp [hz])) hwx.2 l h]
      simp [flatTokL]

lemma splitBack_depth (N : ℕ) : ∀ t, expDepth t ≤ N → SplitBack t := by
  induction N with
  | zero =>
    intro t h
    have := expDepth_pos t
    omega
  | succ N ih =>
    intro t hd hwf l hl
    cases t with
    | int n =>
      have hnext : spacedNext l = true := by
        rcases hl with h | ⟨ys, h⟩
        · exact h
        · exact absurd h (by simp)
      rw [lisp_str, expandStr_plain _ (intRepr_plain n), flatTok,
        pySplit_token _ l (intRepr_ne_nil n)
          (fun c hc => plainChar_not_space c (intRepr_plain n c hc)) hnext]
      rfl
    | sym s =>
      have hg : goodSymTok s = true := by simpa [wfTerm] using hwf
      obtain ⟨hne, hp, -, -⟩ := goodSymTok_fields s hg
      have hnext : spacedNext l = true := by
        rcases hl with h | ⟨ys, h⟩
        · exact h
        · exact absurd h (by simp)
      rw [lisp_str, expandStr_plain _ hp, flatTok,
        pySplit_token _ l hne (fun c hc => plainChar_not_space c (hp c hc)) hnext]
      rfl
    | list xs =>
      have hwl : wfTermL xs = true := by simpa [wfTerm] using hwf
      have hIH : ∀ x ∈ xs, SplitBack x := by
        intro x hx
        refine ih x ?_
        have h1 := expDepthL_mem x xs hx
        rw [expDepth] at hd
        omega
      rw [lisp_str, expandStr_append, expandStr_cons,
        show expandChar '(' = " ( ".data from rfl,
        show expandStr [')'] = " ) ".data from rfl]
      rw [show ((" ( ".data ++ expandStr (lispStrJoin xs)) ++ " ) ".data) ++ l =
        ' ' :: ('(' :: (' ' :: (expandStr (lispStrJoin xs) ++
          (' ' :: (')' :: (' ' :: l)))))) by simp]
      rw [pySplitAux_space ' ' rfl,
        show ('(' :: (' ' :: (expandStr (lispStrJoin xs) ++
            (' ' :: (')' :: (' ' :: l)))))) =
          ['('] ++ (' ' :: (expandStr (lispStrJoin xs) ++
            (' ' :: (')' :: (' ' :: l))))) from rfl,
        pySplit_token ['(']
          (' ' :: (expandStr (lispStrJoin xs) ++ (' ' :: (')' :: (' ' :: l)))))
          (by simp) (by simp [isPySpace]) rfl,
        pySplitAux_space ' ' rfl,
        splitJoin xs hIH hwl (' ' :: (')' :: (' ' :: l))) rfl,
        pySplitAux_space ' ' rfl,
        show (')' :: (' ' :: l)) = [')'] ++ (' ' :: l) from rfl,
        pySplit_token [')'] (' ' :: l) (by simp) (by simp [isPySpace]) rfl,
        pySplitAux_space ' ' rfl, flatTok]
      simp
    | float x => simp [wfTerm] at hwf
    | bool b => simp [wfTerm] at hwf
    | prim p => simp [wfTerm] at hwf
    | pynone => simp [wfTerm] at hwf

lemma splitBack (t : Exp) : SplitBack t := splitBack_depth (expDepth t) t le_rfl

lemma tokenize_lisp_str (t : Exp) (hwf : wfTerm t = true) :
    tokenize (lisp_str t) = flatTok t := by
  rw [tokenize_expand]
  have h := splitBack t hwf [] (.inl rfl)
  rw [List.append_nil] at h
  rw [pySplit, h]
  simp [pySplitAux]

lemma parse_lisp_str (t : Exp) (hwf : wfTerm t = true) :
    parse (lisp_str t) = .ok t := by
  have h := readBack t hwf ((flatTok t).length + 1) [] (by omega)
  rw [List.append_nil] at h
  simp only [parse, tokenize_lisp_str t hwf, h]

/-! ## Claims -/

/-- C1: The claim says both an empty token sequence and an exhausted
token sequence inside an open list fail with `UnexpectedEOF`.  In the
code only the empty sequence does; mid-list exhaustion evaluates
`tokens[0]` on an empty list, a host `IndexError` that the REPL does not
catch.  This theorem records the actual behavior at the claim's own
examples. -/
theorem claim_C1_reader_eof_behavior :
    parse "(+ 1".data = .error .hostIndexError ∧
    parse "".data = .error .unexpectedEOF ∧
    parse ")".data = .error .unexpectedCloseParen ∧
    parse "((1)".data = .error .hostIndexError :=
  ⟨rfl, rfl, rfl, rfl⟩

/-- C2 (counterexample): evaluating `(if 0 1 2)` returns the alternative
`2`, not the consequent `1` as the claim states — the Number `0` is
falsy under the host truthiness the code relies on. -/
theorem claim_C2_counterexample :
    runLine "(if 0 1 2)".data standard_env = .ok (.int 2, standard_env) ∧
    (Exp.int 2 = Exp.int 1 → False) :=
  ⟨rfl, by intro h; injection h with h2; omega⟩

/-- C2 (amended): the condition of an `if` is tested with Python
truthiness, under which the Number `0` is falsy, so `(if 0 a b)`
evaluates exactly the alternative `b`. -/
theorem claim_C2_if_zero_takes_alternative :
    ∀ (fuel : ℕ) (env : Env) (a b : Exp),
      lisp_eval (fuel + 1) (.list [.sym "if".data, .int 0, a, b]) env =
        lisp_eval fuel b env := by
  intro fuel env a b
  cases fuel with
  | zero => rfl
  | succ f => rfl

/-- C3 (counterexample): evaluating the empty List raises a host
`IndexError`, and a `quote` with two operands raises a host
`ValueError`; there is no `MalformedExpression` error in the code. -/
theorem claim_C3_counterexample :
    runLine "()".data standard_env = .error .hostIndexError ∧
    runLine "(quote 1 2)".data standard_env = .error .hostValueError :=
  ⟨rfl, rfl⟩

/-- C3 (amended): evaluating the empty List fails with a host
`IndexError` (from `x[0]`), and a `quote`/`if`/`define` form with the
wrong operand count fails with a host `ValueError` (from tuple
unpacking); neither is a typed interpreter error. -/
theorem claim_C3_malformed_forms :
    (∀ (fuel : ℕ) (env : Env),
      lisp_eval (fuel + 1) (.list []) env = .error .hostIndexError) ∧
    (∀ (fuel : ℕ) (env : Env) (xs : List Exp), xs.length ≠ 1 →
      lisp_eval (fuel + 1) (.list (.sym "quote".data :: xs)) env =
        .error .hostValueError) ∧
    (∀ (fuel : ℕ) (env : Env) (xs : List Exp), xs.length ≠ 3 →
      lisp_eval (fuel + 1) (.list (.sym "if".data :: xs)) env =
        .error .hostValueError) ∧
    (∀ (fuel : ℕ) (env : Env) (xs : List Exp), xs.length ≠ 2 →
      lisp_eval (fuel + 1) (.list (.sym "define".data :: xs)) env =
        .error .hostValueError) := by
  refine ⟨fun fuel env => rfl, ?_, ?_, ?_⟩
  · intro fuel env xs hlen
    match xs with
    | [] => rfl
    | [a] => exact absurd rfl hlen
    | a :: b :: rest => rfl
  · intro fuel env xs hlen
    match xs with
    | [] => rfl
    | [a] => rfl
    | [a, b] => rfl
    | [a, b, c] => exact absurd rfl hlen
    | a :: b :: c :: d :: rest => rfl
  · intro fuel env xs hlen
    match xs with
    | [] => rfl
    | [a] => rfl
    | [a, b] => exact absurd rfl hlen
    | a :: b :: c :: rest => rfl

/-- C3 (witness): `quote` with zero operands is a `ValueError`. -/
theorem claim_C3_witness :
    (([] : List Exp).length ≠ 1) ∧
    lisp_eval 1 (.list [.sym "quote".data]) [] = .error .hostValueError :=
  ⟨by decide, claim_C3_malformed_forms.2.1 0 [] [] (by decide)⟩

/-- C4 (counterexample): `car` and `cdr` applied to the three-element
List `(1 2 3)` succeed with its first and second elements — the claim
says any List whose length is not 2 fails with `TypeMismatch`, but no
such error exists in the code. -/
theorem claim_C4_counterexample :
    runLine "(car (quote (1 2 3)))".data standard_env =
      .ok (.int 1, standard_env) ∧
    runLine "(cdr (quote (1 2 3)))".data standard_env =
      .ok (.int 2, standard_env) :=
  ⟨rfl, rfl⟩

/-- C4 (amended): `car`/`cdr` are plain subscripts `x[0]`/`x[1]`: on a
two-element List they return the two elements, but they equally succeed
on any List long enough (and even index into Symbol strings, returning
one-character Symbols); a too-short List or Symbol raises a host
`IndexError`, and a Number, boolean, Procedure or `None` raises a host
`TypeError` — never a typed `TypeMismatch`. -/
theorem claim_C4_car_cdr_behavior :
    (∀ v w : Exp, applyPrim .car [.list [v, w]] = .ok v) ∧
    (∀ v w : Exp, applyPrim .cdr [.list [v, w]] = .ok w) ∧
    (∀ (v : Exp) (vs : List Exp), applyPrim .car [.list (v :: vs)] = .ok v) ∧
    (∀ (a b : Exp) (vs : List Exp),
      applyPrim .cdr [.list (a :: b :: vs)] = .ok b) ∧
    applyPrim .car [.list []] = .error .hostIndexError ∧
    (∀ a : Exp, applyPrim .cdr [.list [a]] = .error .hostIndexError) ∧
    (∀ (c : Char) (cs : List Char),
      applyPrim .car [.sym (c :: cs)] = .ok (.sym [c])) ∧
    (∀ n : ℤ, applyPrim .car [.int n] = .error .hostTypeError) ∧
    (∀ n : ℤ, applyPrim .cdr [.int n] = .error .hostTypeError) ∧
    (∀ x : PyFloat, applyPrim .car [.float x] = .error .hostTypeError) ∧
    (∀ b : Bool, applyPrim .car [.bool b] = .error .hostTypeError) ∧
    (∀ p : Prim, applyPrim .car [.prim p] = .error .hostTypeError) ∧
    applyPrim .car [.pynone] = .error .hostTypeError :=
  ⟨fun _ _ => rfl, fun _ _ => rfl, fun _ _ => rfl, fun _ _ _ => rfl,
   rfl, fun _ => rfl, fun _ _ => rfl, fun _ => rfl, fun _ => rfl,
   fun _ => rfl, fun _ => rfl, fun _ => rfl, rfl⟩

/-- C5: `if` is short-circuiting: once the condition has evaluated,
evaluating the whole form is exactly evaluating the selected branch in
the condition's resulting environment — the unchosen branch (which may
contain a `define`) is never evaluated, so it contributes no binding. -/
theorem claim_C5_if_short_circuit :
    ∀ (fuel : ℕ) (env : Env) (c t alt v : Exp) (env1 : Env),
      lisp_eval fuel c env = .ok (v, env1) →
      (pyTruthy v = true →
        lisp_eval (fuel + 1) (.list [.sym "if".data, c, t, alt]) env =
          lisp_eval fuel t env1) ∧
      (pyTruthy v = false →
        lisp_eval (fuel + 1) (.list [.sym "if".data, c, t, alt]) env =
          lisp_eval fuel alt env1) := by
  intro fuel env c t alt v env1 hc
  have he : lisp_eval (fuel + 1) (.list [.sym "if".data, c, t, alt]) env =
      match lisp_eval fuel c env with
      | .error er => .error er
      | .ok (w, env2) =>
        if pyTruthy w then lisp_eval fuel t env2
        else lisp_eval fuel alt env2 := rfl
  rw [he, hc]
  constructor
  · intro ht
    simp [ht]
  · intro hf
    simp [hf]

/-- C5 (witness): with a truthy condition, an `if` whose alternative is
a `define` evaluates as just the consequent. -/
theorem claim_C5_witness :
    lisp_eval 1 (.int 1) ([] : Env) = .ok (.int 1, []) ∧
    lisp_eval 2 (.list [.sym "if".data, .int 1, .int 7,
        .list [.sym "define".data, .sym "z".data, .int 9]]) [] =
      lisp_eval 1 (.int 7) [] :=
  ⟨rfl, (claim_C5_if_short_circuit 1 [] (.int 1) (.int 7)
    (.list [.sym "define".data, .sym "z".data, .int 9]) (.int 1) [] rfl).1 rfl⟩

/-- C6: in any Environment that binds `+` to the addition primitive,
evaluating the parse of `(define x 5)` yields `None` (nothing printable)
and binds `x` to `5` in that same Environment, after which the parse of
`(+ x 1)` evaluates to `6`. -/
theorem claim_C6_define_then_use :
    ∀ (env : Env) (fuel : ℕ),
      envLookup (.sym "+".data) env = some (.prim .add) →
      parse "(define x 5)".data =
        .ok (.list [.sym "define".data, .sym "x".data, .int 5]) ∧
      lisp_eval (fuel + 2) (.list [.sym "define".data, .sym "x".data, .int 5])
          env =
        .ok (.pynone, envSet (.sym "x".data) (.int 5) env) ∧
      envLookup (.sym "x".data) (envSet (.sym "x".data) (.int 5) env) =
        some (.int 5) ∧
      parse "(+ x 1)".data =
        .ok (.list [.sym "+".data, .sym "x".data, .int 1]) ∧
      lisp_eval (fuel + 2) (.list [.sym "+".data, .sym "x".data, .int 1])
          (envSet (.sym "x".data) (.int 5) env) =
        .ok (.int 6, envSet (.sym "x".data) (.int 5) env) := by
  intro env fuel h
  refine ⟨rfl, rfl, rfl, rfl, ?_⟩
  have hlk : envLookup (.sym "+".data)
      (envSet (.sym "x".data) (.int 5) env) = some (.prim .add) := by
    rw [envSet, envLookup, if_neg (by decide)]
    exact h
  have h1 : lisp_eval (fuel + 1) (.sym "+".data)
      (envSet (.sym "x".data) (.int 5) env) =
      .ok (.prim .add, envSet (.sym "x".data) (.int 5) env) := by
    rw [show lisp_eval (fuel + 1) (.sym "+".data)
        (envSet (.sym "x".data) (.int 5) env) =
      (match envLookup (.sym "+".data) (envSet (.sym "x".data) (.int 5) env) with
       | some v => .ok (v, envSet (.sym "x".data) (.int 5) env)
       | none => .error (.keyError (.sym "+".data))) from rfl, hlk]
  rw [show lisp_eval (fuel + 2) (.list [.sym "+".data, .sym "x".data, .int 1])
      (envSet (.sym "x".data) (.int 5) env) =
    (match lisp_eval (fuel + 1) (.sym "+".data)
        (envSet (.sym "x".data) (.int 5) env) with
     | .error er => .error er
     | .ok (procv, env1) =>
       match evalArgsF (lisp_eval (fuel + 1)) [.sym "x".data, .int 1] env1 with
       | .error er => .error er
       | .ok (argv, env2) =>
         match procv with
         | .prim p =>
           match applyPrim p argv with
           | .error er => .error er
           | .ok v => .ok (v, env2)
         | _ => .error .hostTypeError) from rfl, h1]
  rfl

/-- C6 (witness): the standard environment binds `+` to the addition
primitive, and there `(+ x 1)` after `(define x 5)` gives `6`. -/
theorem claim_C6_witness :
    envLookup (.sym "+".data) standard_env = some (.prim .add) ∧
    lisp_eval 2 (.list [.sym "+".data, .sym "x".data, .int 1])
        (envSet (.sym "x".data) (.int 5) standard_env) =
      .ok (.int 6, envSet (.sym "x".data) (.int 5) standard_env) :=
  ⟨rfl, (claim_C6_define_then_use standard_env 0 rfl).2.2.2.2⟩

/-- C7: `atom` tries an exact-integer parse first, then a float parse,
and otherwise yields a Symbol; every token matching the spec grammar for
integers (optional sign, then digits) is classified as an integer
Number, never as a float or a Symbol. -/
theorem claim_C7_atom_integer_first :
    (∀ s n, pyIntParse s = some n → atom s = .int n) ∧
    (∀ s x, pyIntParse s = none → pyFloatParse s = some x →
      atom s = .float x) ∧
    (∀ s, pyIntParse s = none → pyFloatParse s = none → atom s = .sym s) ∧
    (∀ s, specIntToken s = true → ∃ n, atom s = .int n) := by
  refine ⟨?_, ?_, ?_, ?_⟩
  · intro s n h
    rw [atom, h]
  · intro s x h1 h2
    rw [atom, h1, h2]
  · intro s h1 h2
    rw [atom, h1, h2]
  · intro s hs
    have hparse : ∃ n, pyIntParse s = some n := by
      unfold specIntToken at hs
      split at hs
      · rename_i cs
        simp only [Bool.and_eq_true, Bool.not_eq_true', List.all_eq_true] at hs
        have hne : cs ≠ [] := by
          intro he
          rw [he] at hs
          simp at hs
        rw [pyIntParse, digitsVal_digits cs hne hs.2]
        exact ⟨_, rfl⟩
      · rename_i cs
        simp only [Bool.and_eq_true, Bool.not_eq_true', List.all_eq_true] at hs
        have hne : cs ≠ [] := by
          intro he
          rw [he] at hs
          simp at hs
        rw [pyIntParse, digitsVal_digits cs hne hs.2]
        exact ⟨_, rfl⟩
      · simp only [Bool.and_eq_true, Bool.not_eq_true', List.all_eq_true] at hs
        have hne : s ≠ [] := by
          intro he
          rw [he] at hs
          simp at hs
        exact ⟨_, pyIntParse_digits s hne hs.2⟩
    obtain ⟨n, hn⟩ := hparse
    exact ⟨n, by rw [atom, hn]⟩

/-- C7 (witness): the signed token `-3` is classified as an integer. -/
theorem claim_C7_witness :
    specIntToken "-3".data = true ∧ (∃ n, atom "-3".data = .int n) :=
  ⟨rfl, claim_C7_atom_integer_first.2.2.2 "-3".data rfl⟩

/-- C9 (counterexample): the round-trip fails for the Term
`Symbol "5"`: it renders to the text `5`, which parses back as the
Number 5, not the original Symbol. -/
theorem claim_C9_counterexample :
    parse (lisp_str (Exp.sym ['5'])) = .ok (.int 5) ∧
    (Exp.int 5 = Exp.sym ['5'] → False) :=
  ⟨rfl, fun h => Exp.noConfusion h⟩

/-- C9 (amended): for every Term built from integer Numbers, Lists, and
Symbols whose spelling is nonempty ASCII text, free of whitespace and
parentheses, and not classifiable as a number by `atom`, evaluating the
quote-wrapped Term, rendering the resulting Value, and parsing the
rendered text yields the Term back, structurally equal.  (The ASCII
restriction keeps the hypothesis inside the domain where the embedded
`int()`/`float()`/`split()` models agree with CPython, which also
recognises non-ASCII digits and whitespace.) -/
theorem claim_C9_roundtrip (t : Exp) (env : Env) (fuel : ℕ)
    (hwf : wfTerm t = true) :
    lisp_eval (fuel + 1) (.list [.sym "quote".data, t]) env = .ok (t, env) ∧
    parse (lisp_str t) = .ok t :=
  ⟨rfl, parse_lisp_str t hwf⟩

/-- C9 (witness): the round-trip at the concrete Term `(ab -3 (0))`. -/
theorem claim_C9_witness :
    wfTerm (.list [.sym "ab".data, .int (-3), .list [.int 0]]) = true ∧
    (lisp_eval 1 (.list [.sym "quote".data,
        .list [.sym "ab".data, .int (-3), .list [.int 0]]]) [] =
      .ok (.list [.sym "ab".data, .int (-3), .list [.int 0]], []) ∧
     parse (lisp_str (.list [.sym "ab".data, .int (-3), .list [.int 0]])) =
      .ok (.list [.sym "ab".data, .int (-3), .list [.int 0]])) :=
  ⟨rfl, claim_C9_roundtrip _ [] 0 rfl⟩

/-- C10: the special forms cannot be shadowed: even in an environment
where `quote` (resp. `if`, `define`) has been bound by a `define`, a
List headed by that Symbol is still dispatched by the hard-coded
special-form tests — `quote` still returns its operand unevaluated, `if`
still branches, `define` still binds — and the stored binding is never
applied, although lookup would find it. -/
theorem claim_C10_special_forms_unshadowable :
    ∀ (fuel : ℕ) (env : Env) (v : Exp),
      envLookup (.sym "quote".data) (envSet (.sym "quote".data) v env) =
        some v ∧
      (∀ r, lisp_eval (fuel + 1) (.list [.sym "quote".data, r])
          (envSet (.sym "quote".data) v env) =
        .ok (r, envSet (.sym "quote".data) v env)) ∧
      (∀ c t e, lisp_eval (fuel + 1) (.list [.sym "if".data, c, t, e])
          (envSet (.sym "if".data) v env) =
        match lisp_eval fuel c (envSet (.sym "if".data) v env) with
        | .error er => .error er
        | .ok (w, env1) =>
          if pyTruthy w then lisp_eval fuel t env1
          else lisp_eval fuel e env1) ∧
      (∀ k e, lisp_eval (fuel + 1) (.list [.sym "define".data, k, e])
          (envSet (.sym "define".data) v env) =
        match lisp_eval fuel e (envSet (.sym "define".data) v env) with
        | .error er => .error er
        | .ok (w, env1) =>
          if isHashable k then .ok (.pynone, envSet k w env1)
          else .error .hostTypeError) :=
  fun _ _ _ =>
    ⟨rfl, fun _ => rfl, fun _ _ _ => rfl, fun _ _ => rfl⟩

end LispIntr
